import Mathlib

/-!
Verification of the Insight-Engine retrieval pipeline core.

The development shallowly embeds the three backend modules:

* `ingest.py`  — `split_into_chunks` (the sliding-window chunk splitter,
  embedded as the fuel-indexed loop `splitLoop`, since the Python `while`
  loop need not terminate for degenerate parameters) and the orchestration
  of `main` (`ingest_main`, with the filesystem walk, the uuid supply and
  the persistent vector store passed in as explicit data).
* `search.py`  — `get_collection` and `search`, with the external Chroma
  store modelled as an `Option CollectionData` and the store's `query`
  reply modelled by `QueryReply`.

Text is `List Char`; Python slices and `str.strip` are translated with
`List.take`, `List.drop` and `pyStrip`.  Nat subtraction `e - overlap`
coincides with Python's `max(0, end - overlap)` because both operands are
nonnegative.
-/

namespace InsightEngine

/-- Whitespace test matching Python `str.strip()` on ASCII input:
space, tab, newline, carriage return, vertical tab, form feed. -/
def isPySpace (c : Char) : Bool :=
  c = ' ' || c = '\t' || c = '\n' || c = '\r' || c = '\x0b' || c = '\x0c'

/-- Python `text.strip()`: remove leading and trailing whitespace. -/
def pyStrip (s : List Char) : List Char :=
  ((s.dropWhile isPySpace).reverse.dropWhile isPySpace).reverse

/-- The `while start < n` loop of `split_into_chunks` (ingest.py lines
104-116), indexed by fuel because the Python loop does not terminate for
every parameter choice.  Each iteration computes
`end = min(start + max_chars, n)`, emits the slice `text[start:end]`
(written as `(t.drop start).take (e - start)`), stops if `end == n`, and
otherwise continues from `max(0, end - overlap)` (Nat subtraction). -/
def splitLoop (maxChars overlap : Nat) (t : List Char) : Nat → Nat → Option (List (List Char))
  | 0, _ => none
  | fuel + 1, start =>
    if start < t.length then
      let e := min (start + maxChars) t.length
      let chunk := (t.drop start).take (e - start)
      if e = t.length then
        some [chunk]
      else
        match splitLoop maxChars overlap t fuel (e - overlap) with
        | some rest => some (chunk :: rest)
        | none => none
    else
      some []

/-- `split_into_chunks(text, max_chars, overlap)` from ingest.py:
strip the text, return `[]` when the stripped text is empty, otherwise
run the chunking loop from cursor 0.  `fuel` bounds the number of loop
iterations modelled; a run of the Python function that performs at most
`fuel` iterations is represented by a `some` result. -/
def split_into_chunks (text : List Char) (maxChars overlap : Nat) (fuel : Nat) :
    Option (List (List Char)) :=
  let t := pyStrip text
  if t = [] then some [] else splitLoop maxChars overlap t fuel 0

/-- The Python call `split_into_chunks(text, maxChars, overlap)` returns the
chunk list `cs` (i.e. the loop finishes within some finite number of
iterations and produces `cs`). -/
def SplitReturns (text : List Char) (maxChars overlap : Nat) (cs : List (List Char)) : Prop :=
  ∃ fuel, split_into_chunks text maxChars overlap fuel = some cs

/-- The Python call `split_into_chunks(text, maxChars, overlap)` terminates. -/
def SplitTerminates (text : List Char) (maxChars overlap : Nat) : Prop :=
  ∃ cs, SplitReturns text maxChars overlap cs

/-- Default `max_chars` of `split_into_chunks` (ingest.py line 83). -/
def MAX_CHARS : Nat := 800

/-- Default `overlap` of `split_into_chunks` (ingest.py line 83). -/
def OVERLAP : Nat := 200

/-- `split_into_chunks(full_text)` with the source's default parameters, as
called from `main` (ingest.py line 160).  Fuel `length + 1` is sufficient
because the defaults satisfy `overlap < max_chars` (`splitD_spec` below
proves the loop indeed returns exactly this value). -/
def splitD (text : List Char) : List (List Char) :=
  (split_into_chunks text MAX_CHARS OVERLAP ((pyStrip text).length + 1)).getD []

/-- The content of the persisted "notes" collection: the three index-aligned
lists passed to `collection.add(ids=..., documents=..., metadatas=...)`
(ingest.py lines 179-183).  A metadata record is the
`{"source": ..., "chunk_index": ...}` pair. -/
structure CollectionData where
  ids : List String
  documents : List (List Char)
  metadatas : List (String × Int)
deriving DecidableEq

/-- The records contributed by one document in the per-file loop of `main`
(ingest.py lines 159-172): `enumerate(chunks)` pairs each chunk with its
0-based `chunk_index`, and the metadata stores `(source, chunk_index)`. -/
def perDocEntries (path : String) (text : List Char) : List ((String × Int) × List Char) :=
  ((splitD text).enum).map (fun p => ((path, (p.1 : Int)), p.2))

/-- The user-visible outcome reported by `main`: the early-return prints for
a missing root / no supported files, or the rebuild (with its printed file
and chunk counts). -/
inductive IngestReport where
  | missingRoot
  | noFiles
  | rebuilt (numFiles numChunks : Nat)
deriving DecidableEq

/-- `main()` from ingest.py.  The filesystem is abstracted by
`dataDirExists` (line 121) and the walker's output `docs` (line 126), the
`uuid.uuid4()` stream by `idSupply`, and the persisted "notes" collection by
`store`.  Returns the collection state after the run and the report:
* missing root: print and return, store untouched (lines 121-123);
* no documents: print and return, store untouched (lines 128-130);
* otherwise delete any previous collection, create a fresh one, accumulate
  ids / chunk texts / metadata over all documents in order, and submit the
  batch (lines 143-183). -/
def ingest_main (dataDirExists : Bool) (docs : List (String × List Char))
    (idSupply : Nat → String) (store : Option CollectionData) :
    Option CollectionData × IngestReport :=
  if !dataDirExists then
    (store, .missingRoot)
  else if docs.isEmpty then
    (store, .noFiles)
  else
    let entries := (docs.map (fun d => perDocEntries d.1 d.2)).flatten
    (some { ids := (List.range entries.length).map idSupply,
            documents := entries.map (fun e => e.2),
            metadatas := entries.map (fun e => e.1) },
     .rebuilt docs.length entries.length)

/-- Failure raised by the external store when a collection is requested that
does not exist (the condition `client.get_collection` raises in
search.py lines 34-37 when ingestion has never run). -/
inductive StoreError where
  | collectionNotFound (name : String)
deriving DecidableEq

/-- Collection name shared by ingest.py and search.py. -/
def COLLECTION_NAME : String := "notes"

/-- `get_collection()` from search.py: look up the persisted "notes"
collection; if it does not exist the store's "collection not found" error
propagates (the function has no handler). -/
def get_collection (store : Option CollectionData) : Except StoreError CollectionData :=
  match store with
  | none => .error (.collectionNotFound COLLECTION_NAME)
  | some c => .ok c

/-- Similarity distances are opaque scalars for this development (the code
never inspects them, only passes them through); an `Int` stands in for the
store's floating-point distance. -/
abbrev Distance := Int

/-- A metadata record in a query reply.  Fields are optional because
`search` reads them with `meta.get("source", "unknown")` and
`meta.get("chunk_index", -1)` (search.py lines 68-69). -/
structure MetaRecord where
  source : Option String
  chunk_index : Option Int
deriving DecidableEq

/-- The per-query part of the reply of `collection.query` used by `search`:
`results["documents"][0]`, `results["metadatas"][0]`, and the optional
`results["distances"]` whose absence `search` replaces by
`[[None] * len(documents)]` (search.py lines 59-61). -/
structure QueryReply where
  documents : List (List Char)
  metadatas : List MetaRecord
  distances : Option (List (Option Distance))
deriving DecidableEq

/-- One result dict built by `search` (search.py lines 65-72). -/
structure SearchHit where
  text : List Char
  source : String
  chunk_index : Int
  distance : Option Distance
deriving DecidableEq

/-- The normalization loop of `search` (search.py lines 59-74): default the
distances array when absent, zip the three arrays (Python `zip` truncates
to the shortest), and build one hit per triple with the metadata
defaults. -/
def searchHits (results : QueryReply) : List SearchHit :=
  let documents := results.documents
  let metadatas := results.metadatas
  let distances := results.distances.getD (List.replicate documents.length none)
  (documents.zip (metadatas.zip distances)).map
    (fun q => { text := q.1,
                source := q.2.1.source.getD "unknown",
                chunk_index := q.2.1.chunk_index.getD (-1),
                distance := q.2.2 })

/-- `search(query, n_results)` from search.py: fetch the collection (the
store's "collection not found" failure propagates), run the external query
(abstracted by `runQuery`), and normalize the reply. -/
def search (store : Option CollectionData) (queryText : List Char) (n_results : Nat)
    (runQuery : CollectionData → List Char → Nat → QueryReply) :
    Except StoreError (List SearchHit) :=
  match get_collection store with
  | .error e => .error e
  | .ok col => .ok (searchHits (runQuery col queryText n_results))

/-! ## Basic behaviour of the chunking loop -/

/-- With `max_chars = 0` the loop never reaches `end == n`, so it never
finishes (the cursor can only stand still or move backwards). -/
theorem splitLoop_zero_max (overlap : Nat) (t : List Char) :
    ∀ fuel start, start < t.length → splitLoop 0 overlap t fuel start = none := by
  intro fuel
  induction fuel with
  | zero => intro start h; rfl
  | succ fuel ih =>
    intro start h
    have he : min (start + 0) t.length = start := by omega
    simp only [splitLoop, if_pos h, he]
    rw [if_neg (by omega : ¬ start = t.length)]
    rw [ih (start - overlap) (by omega)]

/-- When `overlap ≥ max_chars` and more than `max_chars` characters remain,
the cursor update `max(0, end - overlap)` never moves forward, so the loop
runs forever: no amount of fuel produces a result. -/
theorem splitLoop_stuck (maxChars overlap : Nat) (t : List Char) (hov : maxChars ≤ overlap) :
    ∀ fuel start, start + maxChars < t.length →
      splitLoop maxChars overlap t fuel start = none := by
  intro fuel
  induction fuel with
  | zero => intro start h; rfl
  | succ fuel ih =>
    intro start h
    have hs : start < t.length := by omega
    have he : min (start + maxChars) t.length = start + maxChars := by omega
    simp only [splitLoop, if_pos hs, he]
    rw [if_neg (by omega : ¬ start + maxChars = t.length)]
    rw [ih (start + maxChars - overlap) (by omega)]

/-- When at most `max_chars` characters are in the text, the very first
iteration is terminal and emits the whole text as the only chunk. -/
theorem splitLoop_short (maxChars overlap : Nat) (t : List Char) (hn : t ≠ [])
    (hle : t.length ≤ maxChars) :
    ∀ fuel, splitLoop maxChars overlap t (fuel + 1) 0 = some [t] := by
  intro fuel
  have h0 : 0 < t.length := List.length_pos.mpr hn
  have he : min (0 + maxChars) t.length = t.length := by omega
  simp only [splitLoop, if_pos h0, he]
  simp

/-- With `overlap < max_chars` every iteration advances the cursor by at
least one character, so fuel covering the text length suffices. -/
theorem splitLoop_total (maxChars overlap : Nat) (t : List Char) (hmv : overlap < maxChars) :
    ∀ fuel start, start < t.length → t.length ≤ start + fuel →
      ∃ cs, splitLoop maxChars overlap t fuel start = some cs := by
  intro fuel
  induction fuel with
  | zero => intro start h1 h2; omega
  | succ fuel ih =>
    intro start h1 h2
    by_cases he : min (start + maxChars) t.length = t.length
    · refine ⟨[(t.drop start).take (min (start + maxChars) t.length - start)], ?_⟩
      simp only [splitLoop, if_pos h1, if_pos he]
    · have h3 : start + maxChars < t.length := by omega
      have he' : min (start + maxChars) t.length = start + maxChars := by omega
      obtain ⟨cs, hcs⟩ := ih (start + maxChars - overlap) (by omega) (by omega)
      refine ⟨(t.drop start).take (start + maxChars - start) :: cs, ?_⟩
      simp only [splitLoop, if_pos h1, he']
      rw [if_neg (by omega : ¬ start + maxChars = t.length)]
      rw [hcs]

/-- Every chunk the loop ever emits is a non-empty list. -/
theorem splitLoop_ne_nil (maxChars overlap : Nat) (t : List Char) :
    ∀ fuel start cs, splitLoop maxChars overlap t fuel start = some cs →
      ∀ c ∈ cs, c ≠ [] := by
  intro fuel
  induction fuel with
  | zero => intro start cs h; exact absurd h (by simp [splitLoop])
  | succ fuel ih =>
    intro start cs h
    by_cases hs : start < t.length
    · by_cases hm : maxChars = 0
      · subst hm
        rw [splitLoop_zero_max overlap t (fuel + 1) start hs] at h
        exact absurd h (by simp)
      · by_cases he : min (start + maxChars) t.length = t.length
        · simp only [splitLoop, if_pos hs, if_pos he] at h
          simp only [Option.some.injEq] at h
          subst h
          intro c hc
          simp only [List.mem_singleton] at hc
          subst hc
          refine List.length_pos.mp ?_
          simp only [List.length_take, List.length_drop]
          omega
        · simp only [splitLoop, if_pos hs, if_neg he] at h
          cases hrec : splitLoop maxChars overlap t fuel
              (min (start + maxChars) t.length - overlap) with
          | none => rw [hrec] at h; exact absurd h (by simp)
          | some rest =>
            rw [hrec] at h
            simp only [Option.some.injEq] at h
            subst h
            intro c hc
            rcases List.mem_cons.mp hc with rfl | hc
            · refine List.length_pos.mp ?_
              simp only [List.length_take, List.length_drop]
              omega
            · exact ih _ rest hrec c hc
    · simp only [splitLoop, if_neg hs] at h
      simp only [Option.some.injEq] at h
      subst h
      intro c hc
      exact absurd hc (by simp)

/-- Move between `SplitReturns` and the underlying loop when the stripped
text is non-empty. -/
theorem splitReturns_loop (text : List Char) (maxChars overlap : Nat)
    (cs : List (List Char)) (ht : pyStrip text ≠ []) :
    SplitReturns text maxChars overlap cs ↔
      ∃ fuel, splitLoop maxChars overlap (pyStrip text) fuel 0 = some cs := by
  constructor
  · rintro ⟨fuel, hf⟩
    simp only [split_into_chunks] at hf
    rw [if_neg ht] at hf
    exact ⟨fuel, hf⟩
  · rintro ⟨fuel, hf⟩
    refine ⟨fuel, ?_⟩
    simp only [split_into_chunks]
    rw [if_neg ht]
    exact hf

/-! ## Claim C1: behaviour for `overlap ≥ max_chars` -/

/-- Counterexample to C1: the 12-character text `"abcdefghijkl"` with
`max_chars = 10 > 0` and `overlap = 10 ≥ max_chars` satisfies every
hypothesis of the claim, yet `split_into_chunks` does not terminate on it:
the `max(0, …)` clamp does not prevent the infinite loop. -/
theorem split_c1_counterexample :
    ((0 : Nat) < 10 ∧ (10 : Nat) ≤ 10 ∧ pyStrip ("abcdefghijkl".toList) ≠ []) ∧
    ¬ SplitTerminates ("abcdefghijkl".toList) 10 10 := by
  refine ⟨by decide, ?_⟩
  rintro ⟨cs, fuel, h⟩
  simp only [split_into_chunks] at h
  rw [if_neg (by decide : ¬ pyStrip ("abcdefghijkl".toList) = [])] at h
  rw [splitLoop_stuck 10 10 (pyStrip ("abcdefghijkl".toList)) (Nat.le_refl 10) fuel 0
      (by decide)] at h
  exact Option.noConfusion h

/-- C1 (amended): for `max_chars ≥ 1` and `overlap ≥ max_chars` on a text
with non-empty trimmed form, `split_into_chunks` terminates exactly when
the trimmed text fits into a single window (`length ≤ max_chars`, where the
first iteration is terminal); when the trimmed text is longer, the clamped
cursor update makes zero forward progress and the loop never terminates. -/
theorem split_terminates_iff_degenerate (text : List Char) (maxChars overlap : Nat)
    (hm : 1 ≤ maxChars) (hov : maxChars ≤ overlap) (ht : pyStrip text ≠ []) :
    SplitTerminates text maxChars overlap ↔ (pyStrip text).length ≤ maxChars := by
  constructor
  · intro hterm
    by_contra hgt
    obtain ⟨cs, fuel, h⟩ := hterm
    simp only [split_into_chunks] at h
    rw [if_neg ht] at h
    rw [splitLoop_stuck maxChars overlap (pyStrip text) hov fuel 0 (by omega)] at h
    exact Option.noConfusion h
  · intro hle
    exact ⟨[pyStrip text], 1, by
      simp only [split_into_chunks]
      rw [if_neg ht]
      exact splitLoop_short maxChars overlap (pyStrip text) ht hle 0⟩

/-- Witness for the amended C1: with `max_chars = 2`, `overlap = 5` the call
on the 2-character text `"ab"` terminates. -/
theorem split_terminates_iff_degenerate_witness :
    ((1 : Nat) ≤ 2 ∧ (2 : Nat) ≤ 5 ∧ pyStrip ("ab".toList) ≠ []) ∧
    SplitTerminates ("ab".toList) 2 5 :=
  ⟨⟨by decide, by decide, by decide⟩,
   (split_terminates_iff_degenerate ("ab".toList) 2 5 (by decide) (by decide)
      (by decide)).mpr (by decide)⟩

/-! ## Claim C7: texts that fit in one window -/

/-- C7: when the trimmed text is non-empty and no longer than `max_chars`,
`split_into_chunks` returns (for any `overlap`) exactly one chunk, the
whole trimmed text — and that is the only list it can ever return. -/
theorem split_single_chunk (text : List Char) (maxChars overlap : Nat)
    (ht : pyStrip text ≠ []) (hle : (pyStrip text).length ≤ maxChars) :
    SplitReturns text maxChars overlap [pyStrip text] ∧
    ∀ cs, SplitReturns text maxChars overlap cs → cs = [pyStrip text] := by
  constructor
  · exact (splitReturns_loop text maxChars overlap [pyStrip text] ht).mpr
      ⟨1, splitLoop_short maxChars overlap (pyStrip text) ht hle 0⟩
  · intro cs hret
    obtain ⟨fuel, hf⟩ := (splitReturns_loop text maxChars overlap cs ht).mp hret
    cases fuel with
    | zero => exact absurd hf (by simp [splitLoop])
    | succ fuel =>
      rw [splitLoop_short maxChars overlap (pyStrip text) ht hle fuel] at hf
      simp only [Option.some.injEq] at hf
      exact hf.symm

/-- Witness for C7: the spec scenario `"ABCDEFGHIJ"` (10 characters) with
`max_chars = 10`, `overlap = 2` yields exactly the one chunk
`"ABCDEFGHIJ"`. -/
theorem split_single_chunk_witness :
    pyStrip ("ABCDEFGHIJ".toList) = "ABCDEFGHIJ".toList ∧
    SplitReturns ("ABCDEFGHIJ".toList) 10 2 [pyStrip ("ABCDEFGHIJ".toList)] :=
  ⟨by decide, (split_single_chunk ("ABCDEFGHIJ".toList) 10 2 (by decide) (by decide)).1⟩

/-! ## Claim C8: empty input and non-empty chunks -/

/-- C8: an empty or whitespace-only text (trimmed form `[]`) splits into
zero chunks for every parameter choice, and whatever chunk list any call of
`split_into_chunks` returns contains only non-empty chunks. -/
theorem split_empty_and_nonempty :
    (∀ (text : List Char) (maxChars overlap fuel : Nat), pyStrip text = [] →
        split_into_chunks text maxChars overlap fuel = some []) ∧
    (∀ (text : List Char) (maxChars overlap fuel : Nat) (cs : List (List Char)),
        split_into_chunks text maxChars overlap fuel = some cs → ∀ c ∈ cs, c ≠ []) := by
  constructor
  · intro text maxChars overlap fuel h
    simp only [split_into_chunks]
    rw [if_pos h]
  · intro text maxChars overlap fuel cs h c hc
    by_cases ht : pyStrip text = []
    · simp only [split_into_chunks] at h
      rw [if_pos ht] at h
      simp only [Option.some.injEq] at h
      subst h
      exact absurd hc (by simp)
    · simp only [split_into_chunks] at h
      rw [if_neg ht] at h
      exact splitLoop_ne_nil maxChars overlap (pyStrip text) fuel 0 cs h c hc

/-- Witness for C8: the whitespace-only text `"  "` yields zero chunks, and
the chunk list returned for `"ab"` has only non-empty entries. -/
theorem split_empty_and_nonempty_witness :
    split_into_chunks ("  ".toList) 5 1 7 = some [] ∧
    (∀ c ∈ ["ab".toList], c ≠ []) :=
  ⟨split_empty_and_nonempty.1 ("  ".toList) 5 1 7 (by decide),
   split_empty_and_nonempty.2 ("ab".toList) 5 1 7 ["ab".toList] (by decide)⟩

/-! ## Soundness of the loop for valid parameters (`overlap < max_chars`) -/

/-- Everything any successful run of the loop guarantees, for
`overlap < max_chars`, from any cursor inside the text: the chunk list is
non-empty; its head is the window starting at the cursor; removing the
first `overlap` characters of every chunk but the first and concatenating
reconstructs the text from the cursor on (full coverage, exact overlap, no
gap); the last chunk is a suffix of the text reaching its end; every chunk
fits in `max_chars`; and consecutive chunks agree on their `overlap`-sized
common slice. -/
theorem splitLoop_sound (maxChars overlap : Nat) (t : List Char) (hmv : overlap < maxChars) :
    ∀ fuel start cs, splitLoop maxChars overlap t fuel start = some cs → start < t.length →
      cs ≠ [] ∧
      cs.headI = (t.drop start).take maxChars ∧
      cs.headI ++ ((cs.drop 1).map (fun c => c.drop overlap)).flatten = t.drop start ∧
      (∃ s, cs.getLast? = some (t.drop s)) ∧
      (∀ c ∈ cs, c.length ≤ maxChars) ∧
      List.Chain' (fun a b => b.take overlap = a.drop (a.length - overlap)) cs := by
  intro fuel
  induction fuel with
  | zero => intro start cs h hs; exact absurd h (by simp [splitLoop])
  | succ fuel ih =>
    intro start cs h hs
    by_cases he : min (start + maxChars) t.length = t.length
    · -- terminal iteration: one final chunk reaching the end of the text
      simp only [splitLoop, if_pos hs, if_pos he, Option.some.injEq] at h
      subst h
      have hchunk : (t.drop start).take (min (start + maxChars) t.length - start)
          = t.drop start := by
        rw [he]
        exact List.take_of_length_le (by simp)
      rw [hchunk]
      have hfit : (t.drop start).length ≤ maxChars := by
        simp only [List.length_drop]
        omega
      refine ⟨by simp, (List.take_of_length_le hfit).symm, by simp, ⟨start, by simp⟩, ?_, ?_⟩
      · intro c hc
        simp only [List.mem_singleton] at hc
        subst hc
        exact hfit
      · exact List.chain'_singleton _
    · -- non-terminal iteration
      have h3 : start + maxChars < t.length := by omega
      have hmin : min (start + maxChars) t.length = start + maxChars := by omega
      have hms : start + maxChars - start = maxChars := by omega
      simp only [splitLoop, if_pos hs, hmin, hms] at h
      rw [if_neg (by omega : ¬ start + maxChars = t.length)] at h
      cases hrec : splitLoop maxChars overlap t fuel (start + maxChars - overlap) with
      | none => rw [hrec] at h; exact absurd h (by simp)
      | some rest =>
        rw [hrec] at h
        simp only [Option.some.injEq] at h
        subst h
        obtain ⟨hne, hhead, hcov, hlast, hlens, hchain⟩ :=
          ih (start + maxChars - overlap) rest hrec (by omega)
        obtain ⟨b, bs, rfl⟩ := List.exists_cons_of_ne_nil hne
        simp only [List.headI_cons] at hhead
        simp only [List.headI_cons, List.drop_one, List.tail_cons] at hcov
        have hlb : overlap ≤ b.length := by
          rw [hhead]
          simp only [List.length_take, List.length_drop]
          omega
        have hchunklen : ((t.drop start).take maxChars).length = maxChars := by
          simp only [List.length_take, List.length_drop]
          omega
        refine ⟨by simp, by simp, ?_, ?_, ?_, ?_⟩
        · -- coverage with exact overlap
          simp only [List.headI_cons, List.drop_one, List.tail_cons, List.map_cons,
            List.flatten_cons]
          have key : b.drop overlap ++ ((bs.map (fun c => c.drop overlap)).flatten)
              = t.drop (start + maxChars) := by
            rw [← List.drop_append_of_le_length hlb, hcov, List.drop_drop]
            congr 1
            omega
          rw [key, ← List.drop_drop, List.take_append_drop]
        · obtain ⟨s, hl⟩ := hlast
          exact ⟨s, by rw [List.getLast?_cons_cons]; exact hl⟩
        · intro c hc
          rcases List.mem_cons.mp hc with rfl | hc
          · rw [hchunklen]
          · exact hlens c hc
        · rw [List.chain'_cons]
          refine ⟨?_, hchain⟩
          rw [hchunklen, hhead]
          rw [List.take_take, Nat.min_eq_left (Nat.le_of_lt hmv)]
          rw [List.drop_take, List.drop_drop]
          have e1 : maxChars - (maxChars - overlap) = overlap := by omega
          have e2 : start + (maxChars - overlap) = start + maxChars - overlap := by omega
          rw [e1, e2]

/-! ## Claim C2: coverage, bounded chunk size, last chunk at end of text -/

/-- C2: for a text with non-empty trimmed form and `max_chars > overlap ≥ 0`
the call returns, and any chunk list it returns covers the trimmed text
with no gap: keeping the first chunk whole and stripping the leading
`overlap` characters from every later chunk reconstructs the trimmed text
exactly (so each chunk starts `overlap` characters before the previous
chunk's end, in particular at or before it), the last chunk is a suffix of
the trimmed text ending exactly at its last index, and every chunk has at
most `max_chars` characters. -/
theorem split_covers (text : List Char) (maxChars overlap : Nat)
    (hmv : overlap < maxChars) (ht : pyStrip text ≠ []) :
    (∃ cs, SplitReturns text maxChars overlap cs) ∧
    ∀ cs, SplitReturns text maxChars overlap cs →
      cs ≠ [] ∧
      cs.headI ++ ((cs.drop 1).map (fun c => c.drop overlap)).flatten = pyStrip text ∧
      (∃ s, cs.getLast? = some ((pyStrip text).drop s)) ∧
      ∀ c ∈ cs, c.length ≤ maxChars := by
  have hn : 0 < (pyStrip text).length := List.length_pos.mpr ht
  constructor
  · obtain ⟨cs, hcs⟩ := splitLoop_total maxChars overlap (pyStrip text) hmv
      ((pyStrip text).length + 1) 0 hn (by omega)
    exact ⟨cs, (splitReturns_loop text maxChars overlap cs ht).mpr ⟨_, hcs⟩⟩
  · intro cs hret
    obtain ⟨fuel, hf⟩ := (splitReturns_loop text maxChars overlap cs ht).mp hret
    obtain ⟨h1, _, h3, h4, h5, _⟩ :=
      splitLoop_sound maxChars overlap (pyStrip text) hmv fuel 0 cs hf hn
    rw [List.drop_zero] at h3
    exact ⟨h1, h3, h4, h5⟩

/-- Witness for C2 at the text `"abcdef"` with `max_chars = 3`,
`overlap = 1`. -/
theorem split_covers_witness :
    ((1 : Nat) < 3 ∧ pyStrip ("abcdef".toList) ≠ []) ∧
    (∃ cs, SplitReturns ("abcdef".toList) 3 1 cs) :=
  ⟨⟨by decide, by decide⟩, (split_covers ("abcdef".toList) 3 1 (by decide) (by decide)).1⟩

/-! ## Claim C3: exact overlap between consecutive chunks -/

/-- C3: for `max_chars > overlap ≥ 0` and a non-empty trimmed text, in any
chunk list `split_into_chunks` returns each consecutive pair overlaps by
exactly `overlap` characters — the first `overlap` characters of the later
chunk are the last `overlap` characters of the earlier one (the later chunk
starts at the earlier chunk's end minus `overlap`); and concretely the
26-character alphabet with `max_chars = 10`, `overlap = 2` splits into the
three chunks `text[0:10]`, `text[8:18]`, `text[16:26]`. -/
theorem split_overlaps_exact (text : List Char) (maxChars overlap : Nat)
    (hmv : overlap < maxChars) (ht : pyStrip text ≠ []) :
    (∀ cs, SplitReturns text maxChars overlap cs →
      List.Chain' (fun a b => b.take overlap = a.drop (a.length - overlap)) cs) ∧
    SplitReturns ("abcdefghijklmnopqrstuvwxyz".toList) 10 2
      ["abcdefghij".toList, "ijklmnopqr".toList, "qrstuvwxyz".toList] := by
  have hn : 0 < (pyStrip text).length := List.length_pos.mpr ht
  constructor
  · intro cs hret
    obtain ⟨fuel, hf⟩ := (splitReturns_loop text maxChars overlap cs ht).mp hret
    exact (splitLoop_sound maxChars overlap (pyStrip text) hmv fuel 0 cs hf hn).2.2.2.2.2
  · exact ⟨3, by decide⟩

/-- Witness for C3: the spec's alphabet scenario. -/
theorem split_overlaps_exact_witness :
    SplitReturns ("abcdefghijklmnopqrstuvwxyz".toList) 10 2
      ["abcdefghij".toList, "ijklmnopqr".toList, "qrstuvwxyz".toList] :=
  (split_overlaps_exact ("abcdefghijklmnopqrstuvwxyz".toList) 10 2
    (by decide) (by decide)).2

/-! ## Ingestion orchestration -/

/-- The fuel chosen in `splitD` really is enough for the source's default
parameters: the loop run modelled by `splitD` returns. -/
theorem splitD_spec (text : List Char) :
    split_into_chunks text MAX_CHARS OVERLAP ((pyStrip text).length + 1)
      = some (splitD text) := by
  by_cases ht : pyStrip text = []
  · simp only [splitD, split_into_chunks]
    rw [if_pos ht]
    rfl
  · have hn : 0 < (pyStrip text).length := List.length_pos.mpr ht
    obtain ⟨cs, hcs⟩ := splitLoop_total MAX_CHARS OVERLAP (pyStrip text)
      (by simp [MAX_CHARS, OVERLAP]) ((pyStrip text).length + 1) 0 hn (by omega)
    have h : split_into_chunks text MAX_CHARS OVERLAP ((pyStrip text).length + 1)
        = some cs := by
      simp only [split_into_chunks]
      rw [if_neg ht]
      exact hcs
    rw [h, splitD, h]
    rfl

/-- A whitespace-only document contributes no entries at all. -/
theorem perDocEntries_of_blank (path : String) (text : List Char)
    (h : pyStrip text = []) : perDocEntries path text = [] := by
  have hD : splitD text = [] := by
    simp only [splitD, split_into_chunks]
    rw [if_pos h]
    rfl
  simp [perDocEntries, hD]

/-- The `chunk_index` components contributed by `enumerate` starting at `i`
are the consecutive naturals from `i`. -/
theorem enumFrom_entries_fst (path : String) (i : Nat) (l : List (List Char)) :
    (((List.enumFrom i l).map (fun p => ((path, (p.1 : Int)), p.2))).map (fun e => e.1.2))
      = (List.range' i l.length).map Int.ofNat := by
  induction l generalizing i with
  | nil => rfl
  | cons a l ihl => simp [List.range'_succ, ihl]

/-- The chunk-text components contributed by `enumerate` are the chunks
themselves, in order. -/
theorem enumFrom_entries_snd (path : String) (i : Nat) (l : List (List Char)) :
    (((List.enumFrom i l).map (fun p => ((path, (p.1 : Int)), p.2))).map (fun e => e.2)) = l := by
  induction l generalizing i with
  | nil => rfl
  | cons a l ihl => simp [ihl]

/-! ## Claim C4: no documents found leaves the store untouched -/

/-- C4: when the document root is missing or the walker found no supported
files, `main` reports the condition and returns before the
delete/create/add sequence: the persisted collection (present or not) is
returned unchanged. -/
theorem ingest_no_docs_keeps_store (dataDirExists : Bool)
    (docs : List (String × List Char)) (idSupply : Nat → String)
    (store : Option CollectionData)
    (h : dataDirExists = false ∨ docs = []) :
    (ingest_main dataDirExists docs idSupply store).1 = store ∧
    ((ingest_main dataDirExists docs idSupply store).2 = IngestReport.missingRoot ∨
      (ingest_main dataDirExists docs idSupply store).2 = IngestReport.noFiles) := by
  rcases h with rfl | rfl
  · exact ⟨rfl, Or.inl rfl⟩
  · cases dataDirExists
    · exact ⟨rfl, Or.inl rfl⟩
    · exact ⟨rfl, Or.inr rfl⟩

/-- Witness for C4: an existing collection survives a run that finds no
files. -/
theorem ingest_no_docs_keeps_store_witness :
    (ingest_main true [] (fun _ => "u")
        (some { ids := ["a"], documents := [['x']], metadatas := [("f.txt", 0)] })).1
      = some { ids := ["a"], documents := [['x']], metadatas := [("f.txt", 0)] } :=
  (ingest_no_docs_keeps_store true [] (fun _ => "u")
    (some { ids := ["a"], documents := [['x']], metadatas := [("f.txt", 0)] })
    (Or.inr rfl)).1

/-! ## Claim C10: all-blank documents still rebuild (empty) index -/

/-- C10: when the walker finds at least one file but every document's text
strips to empty, `main` still proceeds past the early returns: the previous
collection (whatever it held) is dropped and replaced by a fresh collection
holding zero chunks, and the report announces a rebuild with zero chunks. -/
theorem ingest_blank_docs_rebuild (docs : List (String × List Char))
    (idSupply : Nat → String) (store : Option CollectionData)
    (hne : docs ≠ []) (hws : ∀ d ∈ docs, pyStrip d.2 = []) :
    ingest_main true docs idSupply store
      = (some { ids := [], documents := [], metadatas := [] },
          IngestReport.rebuilt docs.length 0) := by
  have hE : (docs.map (fun d => perDocEntries d.1 d.2)).flatten
      = ([] : List ((String × Int) × List Char)) := by
    rw [List.flatten_eq_nil_iff]
    intro l hl
    obtain ⟨d, hd, rfl⟩ := List.mem_map.mp hl
    exact perDocEntries_of_blank d.1 d.2 (hws d hd)
  unfold ingest_main
  rw [if_neg (by simp), if_neg (by simp [hne])]
  simp [hE]

/-- Witness for C10: one whitespace-only file replaces a populated
collection with an empty one. -/
theorem ingest_blank_docs_rebuild_witness :
    ingest_main true [("a.txt", [' ', ' '])] (fun _ => "u")
        (some { ids := ["old"], documents := [['x']], metadatas := [("old.txt", 0)] })
      = (some { ids := [], documents := [], metadatas := [] },
          IngestReport.rebuilt 1 0) :=
  ingest_blank_docs_rebuild [("a.txt", [' ', ' '])] (fun _ => "u")
    (some { ids := ["old"], documents := [['x']], metadatas := [("old.txt", 0)] })
    (by decide) (by decide)

/-! ## Claim C9: chunk indices are contiguous and 0-based -/

/-- C9: the metadata batch built by `main` is the in-order concatenation of
one block per document, and within each document's block the `chunk_index`
values are exactly `0, 1, 2, …` (the position of each chunk in the list
`split_into_chunks` returned), while the block's texts are exactly those
chunks in order. -/
theorem ingest_chunk_indices (docs : List (String × List Char))
    (idSupply : Nat → String) (store : Option CollectionData) (hne : docs ≠ []) :
    (∃ col, (ingest_main true docs idSupply store).1 = some col ∧
        col.metadatas
          = (docs.map (fun d => (perDocEntries d.1 d.2).map (fun e => e.1))).flatten) ∧
    ∀ (path : String) (text : List Char),
      (perDocEntries path text).map (fun e => e.1.2)
        = (List.range (splitD text).length).map Int.ofNat ∧
      (perDocEntries path text).map (fun e => e.2) = splitD text := by
  constructor
  · have key : ingest_main true docs idSupply store
        = (some { ids := (List.range
                    ((docs.map (fun d => perDocEntries d.1 d.2)).flatten).length).map idSupply,
                  documents := ((docs.map (fun d => perDocEntries d.1 d.2)).flatten).map
                    (fun e => e.2),
                  metadatas := ((docs.map (fun d => perDocEntries d.1 d.2)).flatten).map
                    (fun e => e.1) },
            IngestReport.rebuilt docs.length
              ((docs.map (fun d => perDocEntries d.1 d.2)).flatten).length) := by
      unfold ingest_main
      rw [if_neg (by simp), if_neg (by simp [hne])]
    refine ⟨_, by rw [key], ?_⟩
    simp only [List.map_flatten, List.map_map]
    rfl
  · intro path text
    constructor
    · rw [perDocEntries, show (splitD text).enum = (splitD text).enumFrom 0 from rfl,
        enumFrom_entries_fst, ← List.range_eq_range']
    · rw [perDocEntries, show (splitD text).enum = (splitD text).enumFrom 0 from rfl,
        enumFrom_entries_snd]

/-- Witness for C9 on a concrete one-file ingestion. -/
theorem ingest_chunk_indices_witness :
    (perDocEntries "n.txt" ("hello".toList)).map (fun e => e.1.2)
      = (List.range (splitD ("hello".toList)).length).map Int.ofNat :=
  ((ingest_chunk_indices [("n.txt", "hello".toList)] (fun _ => "u") none
    (by decide)).2 "n.txt" ("hello".toList)).1

/-! ## Claim C5: querying before any ingestion fails -/

/-- C5: with no persisted "notes" collection, `search` propagates the
store's "collection not found" failure to the caller; it can never return a
success value, in particular not an empty hit list. -/
theorem search_unbuilt_index_fails (queryText : List Char) (n_results : Nat)
    (runQuery : CollectionData → List Char → Nat → QueryReply) :
    search none queryText n_results runQuery
      = Except.error (StoreError.collectionNotFound COLLECTION_NAME) ∧
    ∀ hits, search none queryText n_results runQuery ≠ Except.ok hits := by
  refine ⟨rfl, ?_⟩
  intro hits h
  exact Except.noConfusion h

/-- Witness for C5 at a concrete query against the missing collection. -/
theorem search_unbuilt_index_fails_witness :
    search none ("q".toList) 3
        (fun _ _ _ => { documents := [], metadatas := [], distances := none })
      = Except.error (StoreError.collectionNotFound COLLECTION_NAME) :=
  (search_unbuilt_index_fails ("q".toList) 3
    (fun _ _ _ => { documents := [], metadatas := [], distances := none })).1

/-! ## Claim C6: normalization of the store's query reply -/

/-- C6: for a reply whose metadata (and distances, when present) arrays are
aligned with the documents array, `search` builds exactly one hit per
returned document, in store order; the hit at position `i` carries document
`i`'s text, the metadata's `source` defaulted to `"unknown"` when missing
and `chunk_index` defaulted to `-1` when missing; an absent distances array
gives every hit an absent (`none`) distance; and on a present collection
`search` succeeds with exactly these hits. -/
theorem search_normalizes_reply (results : QueryReply)
    (hm : results.metadatas.length = results.documents.length)
    (hd : ∀ ds, results.distances = some ds → ds.length = results.documents.length) :
    (searchHits results).length = results.documents.length ∧
    (∀ (i : Nat) (h1 : i < (searchHits results).length)
        (h2 : i < results.documents.length) (h3 : i < results.metadatas.length),
      ((searchHits results).get ⟨i, h1⟩).text = results.documents.get ⟨i, h2⟩ ∧
      ((searchHits results).get ⟨i, h1⟩).source
        = (results.metadatas.get ⟨i, h3⟩).source.getD "unknown" ∧
      ((searchHits results).get ⟨i, h1⟩).chunk_index
        = (results.metadatas.get ⟨i, h3⟩).chunk_index.getD (-1)) ∧
    (results.distances = none → ∀ hit ∈ searchHits results, hit.distance = none) ∧
    (∀ (col : CollectionData) (queryText : List Char) (n_results : Nat)
        (runQuery : CollectionData → List Char → Nat → QueryReply),
      runQuery col queryText n_results = results →
      search (some col) queryText n_results runQuery
        = Except.ok (searchHits results)) := by
  have hdl : (results.distances.getD
      (List.replicate results.documents.length none)).length
      = results.documents.length := by
    cases hds : results.distances with
    | none => simp
    | some ds => simpa using hd ds hds
  refine ⟨?_, ?_, ?_, ?_⟩
  · simp only [searchHits, List.length_map, List.length_zip, hm, hdl]
    omega
  · intro i h1 h2 h3
    simp [searchHits, List.get_eq_getElem, List.getElem_map, List.getElem_zip]
  · intro hnone hit hmem
    simp only [searchHits, hnone, Option.getD_none] at hmem
    obtain ⟨⟨tx, m, dv⟩, hq, rfl⟩ := List.mem_map.mp hmem
    have h2 := (List.of_mem_zip hq).2
    have h3 := (List.of_mem_zip h2).2
    exact List.eq_of_mem_replicate h3
  · intro col queryText n_results runQuery hrun
    simp [search, get_collection, hrun]

/-- Witness for C6 on a one-document reply with empty metadata and absent
distances. -/
theorem search_normalizes_reply_witness :
    (searchHits { documents := [['a', 'b']],
                  metadatas := [{ source := none, chunk_index := none }],
                  distances := none }).length = 1 :=
  (search_normalizes_reply
    { documents := [['a', 'b']],
      metadatas := [{ source := none, chunk_index := none }],
      distances := none }
    rfl (fun ds h => Option.noConfusion h)).1

end InsightEngine
